import Mathlib

/-!
Shallow embedding of the heshui water-reminder application
(src/heshui/models.py, src/heshui/main.py, src/heshui/settings.py,
src/heshui/config.py, src/heshui/stats.py).

Dates and times: a Python `datetime` is modelled as a calendar-day index
(`Nat`, days since some epoch) together with a time of day; a Python
`time` value is modelled by `Tod` (hour, minute, second; microseconds
play no role in any of the modelled code paths).  A `DrinkRecord`
timestamp is modelled by `Timestamp` (day index plus second-of-day).
-/

namespace Heshui

/-- Python `datetime.time`-like value: hour, minute, second. -/
structure Tod where
  hour : Nat
  minute : Nat
  second : Nat
deriving DecidableEq, Repr

/-- Python `time` comparison is lexicographic on (hour, minute, second). -/
def Tod.lt (a b : Tod) : Prop :=
  a.hour < b.hour ∨
    (a.hour = b.hour ∧ (a.minute < b.minute ∨
      (a.minute = b.minute ∧ a.second < b.second)))

/-- Non-strict lexicographic order on times of day. -/
def Tod.le (a b : Tod) : Prop :=
  Tod.lt a b ∨ a = b

/-- Boolean mirror of `Tod.lt`, as evaluated by Python `<` / `>`. -/
def Tod.ltb (a b : Tod) : Bool :=
  a.hour < b.hour ||
    (a.hour == b.hour && (a.minute < b.minute ||
      (a.minute == b.minute && a.second < b.second)))

theorem Tod.ltb_iff (a b : Tod) : Tod.ltb a b = true ↔ Tod.lt a b := by
  obtain ⟨ah, am, as⟩ := a
  obtain ⟨bh, bm, bs⟩ := b
  simp [Tod.ltb, Tod.lt]

instance : DecidableRel Tod.lt := fun a b =>
  decidable_of_iff (Tod.ltb a b = true) (Tod.ltb_iff a b)

instance : DecidableRel Tod.le := fun _ _ =>
  instDecidableOr

theorem Tod.le_refl (a : Tod) : Tod.le a a := Or.inr rfl

theorem Tod.lt_trans {a b c : Tod} (hab : Tod.lt a b) (hbc : Tod.lt b c) :
    Tod.lt a c := by
  obtain ⟨ah, am, as⟩ := a
  obtain ⟨bh, bm, bs⟩ := b
  obtain ⟨ch, cm, cs⟩ := c
  simp only [Tod.lt] at *
  omega

theorem Tod.le_trans {a b c : Tod} (hab : Tod.le a b) (hbc : Tod.le b c) :
    Tod.le a c := by
  rcases hab with hab | rfl
  · rcases hbc with hbc | rfl
    · exact Or.inl (Tod.lt_trans hab hbc)
    · exact Or.inl hab
  · exact hbc

theorem Tod.le_total (a b : Tod) : Tod.le a b ∨ Tod.le b a := by
  obtain ⟨ah, am, as⟩ := a
  obtain ⟨bh, bm, bs⟩ := b
  simp only [Tod.le, Tod.lt, Tod.mk.injEq]
  omega

instance : IsTotal Tod Tod.le := ⟨Tod.le_total⟩

instance : IsTrans Tod Tod.le := ⟨fun _ _ _ => Tod.le_trans⟩

/-- Python `datetime`-like value: calendar day index plus time of day. -/
structure DateTime where
  day : Nat
  tod : Tod
deriving DecidableEq, Repr

/-- Timestamp of a drink record: calendar day index plus second-of-day. -/
structure Timestamp where
  day : Nat
  sec : Nat
deriving DecidableEq, Repr

/-- One row of the `drink_records` table (models.py `DrinkRecord`):
timestamp, amount in ml (a Python int, so possibly non-positive), note.
The autoincrement `id` column plays no role in the claims and is omitted;
rows are kept in insertion order. -/
structure DrinkRecord where
  timestamp : Timestamp
  amount : Int
  note : String
deriving DecidableEq, Repr

/-- Storage failure raised by the persistence layer (spec `StorageError`). -/
structure StorageError where
  msg : String
deriving DecidableEq, Repr

/-- The SQLite predicate `DrinkRecord.timestamp >= today` where `today` is a
bare date: the stored datetime string compares `>=` the date string exactly
when the record's calendar day is `>= today`. -/
def Timestamp.onOrAfterDay (t : Timestamp) (d : Nat) : Bool :=
  d ≤ t.day

/-- models.py `DatabaseManager.add_record`: builds a `DrinkRecord` with
`timestamp = now` (the column default `datetime.now`) and the given amount
and note, adds it to the store and commits.  There is no validation of
`amount` and nothing is returned. -/
def add_record (db : List DrinkRecord) (now : Timestamp) (amount : Int)
    (note : String) : List DrinkRecord :=
  db ++ [⟨now, amount, note⟩]

/-- models.py `DatabaseManager.get_today_records`: queries all records with
`timestamp >= today`.  The query result is modelled as an `Except` value;
there is no try/except in the source, so a storage error propagates
(`Except.map` keeps `.error` as `.error`). -/
def get_today_records (today : Nat)
    (q : Except StorageError (List DrinkRecord)) :
    Except StorageError (List DrinkRecord) :=
  q.map (fun records => records.filter (fun r => r.timestamp.onOrAfterDay today))

/-- models.py `DatabaseManager.get_total_today`: sums the amounts of
`get_today_records`.  Again no try/except, so a storage error propagates. -/
def get_total_today (today : Nat)
    (q : Except StorageError (List DrinkRecord)) : Except StorageError Int :=
  (get_today_records today q).map (fun records => (records.map (fun r => r.amount)).sum)

/-- Per-day total of the SQL `GROUP BY date(timestamp)` in
`get_weekly_data`: the sum of `amount` over records whose calendar day
equals `d` (this is also the spec's derived `DailyTotal`). -/
def dayTotal (d : Nat) (records : List DrinkRecord) : Int :=
  ((records.filter (fun r => r.timestamp.day == d)).map (fun r => r.amount)).sum

/-- The row set produced by the raw SQL in `get_weekly_data`:
`SELECT date(timestamp), SUM(amount) FROM drink_records WHERE
date(timestamp) >= start GROUP BY day ORDER BY day` — the distinct record
days `>= start`, ascending, each with its day total. -/
def sqlWeeklyRows (records : List DrinkRecord) (start : Nat) :
    List (Nat × Int) :=
  let days :=
    (((records.map (fun r => r.timestamp.day)).filter (fun d => start ≤ d)).dedup).insertionSort (· ≤ ·)
  days.map (fun d => (d, dayTotal d records))

/-- Python dict assignment `dict[k] = v` on an insertion-ordered
association list: update the first binding of `k` in place, or append a
new binding at the end. -/
def updateAssoc {α β : Type} [DecidableEq α] :
    List (α × β) → α → β → List (α × β)
  | [], k, v => [(k, v)]
  | (k', v') :: t, k, v =>
      if k' = k then (k, v) :: t else (k', v') :: updateAssoc t k v

/-- models.py `DatabaseManager.get_weekly_data`: on success, builds
`date_dict` with the 7 days `today-6 .. today` mapped to 0 (Python dicts
preserve insertion order), then overwrites the entry of every day found by
the SQL query; on any exception it returns the single entry
`[(today, 0)]`.  Days are kept as day indices where the source formats
them `'%m-%d'`; that formatting is injective on the days that can occur
here (a window of at most 7 consecutive days), so the keying behaviour is
unchanged. -/
def get_weekly_data (today : Nat)
    (q : Except StorageError (List DrinkRecord)) : List (Nat × Int) :=
  match q with
  | .ok records =>
      let start := today - 6
      let rows := sqlWeeklyRows records start
      let init := (List.range 7).map (fun i => (start + i, (0 : Int)))
      rows.foldl (fun dict row => updateAssoc dict row.1 row.2) init
  | .error _ => [(today, 0)]

/-- models.py `DatabaseManager.delete_reminder_time` (success path): looks
up the first row with the given time; returns `False` without change when
none exists, otherwise deletes that row and returns `True` — there is no
guard against emptying the table (the `except` branch, which also returns
`False`, models a storage failure and is outside the claims). -/
def delete_reminder_time (store : List Tod) (t : Tod) : Bool × List Tod :=
  if t ∈ store then (true, store.erase t) else (false, store)

/-- settings.py `SettingsDialog.deleteReminderTime`, acting on the
dialog's in-memory `reminder_times` list given the selected times (parsed
back from the list widget, hence hour/minute values): bails out without
change when nothing is selected or when at most one time remains;
otherwise removes each selected time that is present. -/
def dialogDeleteReminderTime (reminderTimes : List Tod)
    (selected : List Tod) : List Tod :=
  if selected.isEmpty then reminderTimes
  else if reminderTimes.length ≤ 1 then reminderTimes
  else selected.foldl (fun times t => if t ∈ times then times.erase t else times)
    reminderTimes

/-- main.py `MainWindow.checkReminderTimes`: truncates `now` to minute
precision (`time(hour, minute)`, dropping seconds), fetches the reminder
times, and on the first one whose hour and minute match fires unless
`last_reminder_time` already equals the truncated time, in which case
nothing happens; the watermark is the bare time-of-day value, carrying no
date.  Returns (fired, new watermark). -/
def truncToMinute (t : Tod) : Tod := ⟨t.hour, t.minute, 0⟩

def checkReminderTimes (points : List Tod) (last : Option Tod)
    (now : DateTime) : Bool × Option Tod :=
  let current := truncToMinute now.tod
  match points.find? (fun rt => rt.hour == current.hour && rt.minute == current.minute) with
  | some _ => if last ≠ some current then (true, some current) else (false, last)
  | none => (false, last)

/-- A sequence of timer ticks: each minute the Qt timer invokes
`checkReminderTimes`; this folds the watermark through and collects
whether each invocation fired. -/
def runChecks (points : List Tod) (last : Option Tod) :
    List DateTime → List Bool
  | [] => []
  | t :: ts =>
      let r := checkReminderTimes points last t
      r.1 :: runChecks points r.2 ts

/-- main.py `MainWindow.getNextReminderTime`: sorts the reminder times,
returns `None` when there are none, otherwise the first time strictly
greater than `now.time()` combined with today's date, and failing that
tomorrow's date combined with the first (earliest) time. -/
def getNextReminderTime (points : List Tod) (now : DateTime) :
    Option DateTime :=
  match List.insertionSort Tod.le points with
  | [] => none
  | t0 :: rest =>
      match (t0 :: rest).find? (fun t => Tod.ltb now.tod t) with
      | some t => some ⟨now.day, t⟩
      | none => some ⟨now.day + 1, t0⟩

/-- Values storable in the JSON configuration file. -/
inductive ConfigValue where
  | int (n : Int)
  | str (s : String)
  | bool (b : Bool)
deriving DecidableEq, Repr

/-- config.py `Config._default_config`, as an insertion-ordered dict. -/
def defaultConfig : List (String × ConfigValue) :=
  [("reminder_interval", .int 30),
   ("daily_goal", .int 2000),
   ("reminder_text", .str "该喝水啦！补充水分很重要哦~"),
   ("mute", .bool false),
   ("start_minimized", .bool false)]

/-- Python dict merge of `base` with `overlay` (the double-splat dict
literal in `load_config`): start from `base` and assign every binding of
`overlay` in order (`updateAssoc` is exactly the dict-assignment
semantics). -/
def dictMerge (base overlay : List (String × ConfigValue)) :
    List (String × ConfigValue) :=
  overlay.foldl (fun d kv => updateAssoc d kv.1 kv.2) base

/-- config.py `Config.load_config`: when the file does not exist
(`none`), the defaults are copied; when opening/parsing raises
(`some (.error e)`), the `except` branch also copies the defaults; when
the file parses (`some (.ok kvs)`), the result is the loaded dict merged
over the defaults. -/
def load_config (file : Option (Except StorageError (List (String × ConfigValue)))) :
    List (String × ConfigValue) :=
  match file with
  | none => defaultConfig
  | some (.error _) => defaultConfig
  | some (.ok kvs) => dictMerge defaultConfig kvs

/-- config.py `Config.get` with its `None` default: dict lookup. -/
def Config.get (cfg : List (String × ConfigValue)) (k : String) :
    Option ConfigValue :=
  (cfg.find? (fun kv => kv.1 == k)).map (fun kv => kv.2)

/-- Total amount drunk during hour `h` of day `day`: the sum of `amount`
over records of that day whose second-of-day falls in that hour. -/
def hourTotal (day h : Nat) (records : List DrinkRecord) : Int :=
  ((records.filter (fun r => r.timestamp.day == day && r.timestamp.sec / 3600 == h)).map
    (fun r => r.amount)).sum

/-- Modelled from the spec: `DatabaseManager.get_day_records` is invoked
by stats.py `DailyStatsWidget.updateChart` and mocked by
tests/test_stats.py (which supplies 24 `("HH:00", amount)` pairs), but no
such method exists in src/heshui/models.py.  Spec §4.1:
`dayHourlySeries(day) -> ordered sequence of (hourLabel, total)` for the
24 hours of `day`, oldest first, zero-filled for hours with no records.
Hour labels are kept as the hour number, which the `"HH:00"` formatting
renders injectively. -/
def get_day_records (records : List DrinkRecord) (day : Nat) :
    List (Nat × Int) :=
  (List.range 24).map (fun h => (h, hourTotal day h records))

/-! Theorems: claims C1 through C10. -/

/-- Claim C1, counterexample: `add_record` called with `amount = 0` (which
is `<= 0`) raises no `ValidationError` and persists one `DrinkRecord` —
the claim says it must fail and persist nothing. -/
theorem add_record_zero_amount_persisted :
    add_record [] ⟨0, 0⟩ 0 "" = [⟨⟨0, 0⟩, 0, ""⟩] := rfl

/-- Claim C1, amended: `add_record(amount, note)` performs no validation —
for every `amount`, including `amount <= 0`, it persists exactly one new
`DrinkRecord` with `timestamp = now`, leaving the existing records
unchanged, and returns no id. -/
theorem add_record_no_validation (db : List DrinkRecord) (now : Timestamp)
    (amount : Int) (note : String) :
    (add_record db now amount note).length = db.length + 1 ∧
    (add_record db now amount note).getLast? = some ⟨now, amount, note⟩ ∧
    (add_record db now amount note).take db.length = db := by
  refine ⟨by simp [add_record], by simp [add_record], ?_⟩
  simp [add_record, List.take_left]

/-- Claim C2, counterexample: at the store level,
`delete_reminder_time` on the sole remaining reminder point returns
`true` and empties the set — the claim says it returns `false` and the
size stays 1. -/
theorem delete_sole_reminder_time_empties :
    delete_reminder_time [⟨9, 0, 0⟩] ⟨9, 0, 0⟩ = (true, []) := by decide

/-- Claim C2, amended: the store-level `delete_reminder_time(t)` returns
`false` without mutation exactly when `t` is absent; when `t` is present
it removes it and returns `true` even when that empties the set.  The
sole-point guard exists only in the settings dialog, whose
`deleteReminderTime` leaves its in-memory list unchanged whenever at most
one point remains. -/
theorem delete_reminder_time_spec (store : List Tod) (t : Tod)
    (sel : List Tod) :
    (t ∉ store → delete_reminder_time store t = (false, store)) ∧
    (t ∈ store → (delete_reminder_time store t).1 = true ∧
      (delete_reminder_time store t).2.length + 1 = store.length) ∧
    (sel ≠ [] → store.length ≤ 1 → dialogDeleteReminderTime store sel = store) := by
  refine ⟨fun h => by simp [delete_reminder_time, h], fun h => ?_, fun hsel hlen => ?_⟩
  · have hpos : 0 < store.length := List.length_pos.mpr (by rintro rfl; cases h)
    have hlen := List.length_erase_of_mem h
    constructor
    · simp [delete_reminder_time, h]
    · simp only [delete_reminder_time, if_pos h]
      omega
  · have hsel' : sel.isEmpty = false := by
      simpa [List.isEmpty_iff] using hsel
    simp [dialogDeleteReminderTime, hsel', hlen]

/-- Claim C2, witness for `delete_reminder_time_spec`: an absent point is
refused without mutation, deleting one of two points succeeds, and the
dialog refuses to delete the sole remaining point. -/
theorem delete_reminder_time_spec_witness :
    delete_reminder_time [⟨12, 0, 0⟩] ⟨9, 0, 0⟩ = (false, [⟨12, 0, 0⟩]) ∧
    (delete_reminder_time [⟨9, 0, 0⟩, ⟨12, 0, 0⟩] ⟨9, 0, 0⟩).1 = true ∧
    dialogDeleteReminderTime [⟨9, 0, 0⟩] [⟨9, 0, 0⟩] = [⟨9, 0, 0⟩] :=
  ⟨(delete_reminder_time_spec [⟨12, 0, 0⟩] ⟨9, 0, 0⟩ []).1 (by decide),
   ((delete_reminder_time_spec [⟨9, 0, 0⟩, ⟨12, 0, 0⟩] ⟨9, 0, 0⟩ []).2.1 (by decide)).1,
   (delete_reminder_time_spec [⟨9, 0, 0⟩] ⟨9, 0, 0⟩ [⟨9, 0, 0⟩]).2.2 (by decide) (by decide)⟩

/-- Claim C3, counterexample: `get_total_today` has no try/except — a
storage error is propagated to the caller rather than being converted to
a zero result. -/
theorem get_total_today_propagates_storage_error :
    get_total_today 0 (.error ⟨"disk failure"⟩) =
      .error ⟨"disk failure"⟩ := rfl

/-- Claim C3, amended: only `get_weekly_data` catches storage errors (and
returns the single entry `(today, 0)`, not a zero-filled 7-day series);
`get_today_records` and `get_total_today` propagate the storage exception
to the caller.  On an empty (successfully read) ledger `get_total_today`
does return 0 without throwing. -/
theorem read_query_error_policy (today : Nat) (e : StorageError) :
    get_today_records today (.error e) = .error e ∧
    get_total_today today (.error e) = .error e ∧
    get_total_today today (.ok []) = .ok 0 ∧
    get_weekly_data today (.error e) = [(today, 0)] :=
  ⟨rfl, rfl, rfl, rfl⟩

/-- Claim C5, code bug: the dedup watermark `last_reminder_time` stores a
bare `time(hour, minute)` with no date, so with a single reminder point
at 09:00 a firing on day 0 suppresses the 09:00 firing of day 1 (and of
every later day): the first tick fires and sets the watermark to 09:00,
and the next day's matching tick compares equal to it and does not
fire — the spec's watermark is a full timestamp truncated to the minute,
under which the day-1 tick would fire. -/
theorem checkReminderTimes_cross_day_suppression :
    checkReminderTimes [⟨9, 0, 0⟩] none ⟨0, ⟨9, 0, 5⟩⟩ =
      (true, some ⟨9, 0, 0⟩) ∧
    checkReminderTimes [⟨9, 0, 0⟩] (some ⟨9, 0, 0⟩) ⟨1, ⟨9, 0, 5⟩⟩ =
      (false, some ⟨9, 0, 0⟩) := by decide

/-- Claim C8: after `add_record(amount)` with `amount > 0` and
`timestamp = now` falling on `today`, the today total grows by exactly
`amount`, and the total of any prior day is unchanged. -/
theorem add_record_updates_totals (db : List DrinkRecord) (now : Timestamp)
    (amount : Int) (note : String) (today d : Nat)
    (hamount : 0 < amount) (hnow : now.day = today) (hprior : d < today) :
    (∃ t : Int, get_total_today today (.ok db) = .ok t ∧
      get_total_today today (.ok (add_record db now amount note)) = .ok (t + amount)) ∧
    dayTotal d (add_record db now amount note) = dayTotal d db := by
  constructor
  · refine ⟨_, rfl, ?_⟩
    simp [get_total_today, get_today_records, add_record, List.filter_append,
      Timestamp.onOrAfterDay, hnow, Except.map]
  · have hne : (now.day == d) = false := by
      simp only [beq_eq_false_iff_ne, ne_eq, hnow]
      omega
    simp [dayTotal, add_record, List.filter_append, hne]

/-- Claim C8, witness: starting from an empty store, logging 200 ml at
01:00 of day 7 raises day 7's total from 0 to 200 and leaves day 6's
total at 0. -/
theorem add_record_updates_totals_witness :
    (∃ t : Int, get_total_today 7 (.ok []) = .ok t ∧
      get_total_today 7 (.ok (add_record [] ⟨7, 3600⟩ 200 "")) = .ok (t + 200)) ∧
    dayTotal 6 (add_record [] ⟨7, 3600⟩ 200 "") = dayTotal 6 [] :=
  add_record_updates_totals [] ⟨7, 3600⟩ 200 "" 7 6 (by decide) rfl (by decide)

/-- Claim C9: the day-hourly series has exactly 24 entries, one per hour
of the day in ascending (oldest-first) order, each carrying that hour's
total, and an hour with no records reports total 0.  (`get_day_records`
itself is modelled from the spec; see its doc comment.) -/
theorem get_day_records_spec (records : List DrinkRecord) (day : Nat) :
    (get_day_records records day).length = 24 ∧
    (get_day_records records day).map Prod.fst = List.range 24 ∧
    (∀ p ∈ get_day_records records day, p.2 = hourTotal day p.1 records) ∧
    (∀ h : Nat,
      (∀ r ∈ records, ¬(r.timestamp.day = day ∧ r.timestamp.sec / 3600 = h)) →
      hourTotal day h records = 0) := by
  refine ⟨by simp [get_day_records],
    by simp [get_day_records, List.map_map, Function.comp_def],
    ?_, fun h hr => ?_⟩
  · intro p hp
    simp only [get_day_records, List.mem_map, List.mem_range] at hp
    obtain ⟨i, _, rfl⟩ := hp
    rfl
  · have hnil : records.filter
        (fun r => r.timestamp.day == day && r.timestamp.sec / 3600 == h) = [] := by
      rw [List.filter_eq_nil_iff]
      intro r hrmem
      have := hr r hrmem
      simp only [Bool.and_eq_true, beq_iff_eq]
      tauto
    simp [hourTotal, hnil]

/-- Claim C9, witness: on an empty store every hour of day 0 reports 0;
the series still has 24 in-order entries. -/
theorem get_day_records_spec_witness :
    (get_day_records [] 0).length = 24 ∧
    (get_day_records [] 0).map Prod.fst = List.range 24 ∧
    hourTotal 0 5 [] = 0 :=
  ⟨(get_day_records_spec [] 0).1, (get_day_records_spec [] 0).2.1,
   (get_day_records_spec [] 0).2.2.2 5 (by simp)⟩

/-- Key presence in a config dict survives a single dict assignment. -/
theorem config_get_updateAssoc_isSome (k k' : String) (v : ConfigValue) :
    ∀ d : List (String × ConfigValue),
      (Config.get d k).isSome → (Config.get (updateAssoc d k' v) k).isSome := by
  intro d
  induction d with
  | nil => intro h; simp [Config.get] at h
  | cons a t ih =>
      intro h
      obtain ⟨x, w⟩ := a
      by_cases hxk' : x = k'
      · subst hxk'
        by_cases hxk : x = k
        · subst hxk
          simp [updateAssoc, Config.get]
        · have h' : (Config.get t k).isSome := by
            simpa [Config.get, List.find?_cons, hxk] using h
          simpa [updateAssoc, Config.get, List.find?_cons, hxk] using h'
      · by_cases hxk : x = k
        · subst hxk
          simp [updateAssoc, hxk', Config.get, List.find?_cons]
        · have h' : (Config.get t k).isSome := by
            simpa [Config.get, List.find?_cons, hxk] using h
          simpa [updateAssoc, hxk', Config.get, List.find?_cons, hxk] using ih h'

/-- Key presence in the base dict survives merging an overlay over it. -/
theorem config_get_dictMerge_isSome (k : String) :
    ∀ (overlay base : List (String × ConfigValue)),
      (Config.get base k).isSome → (Config.get (dictMerge base overlay) k).isSome := by
  intro overlay
  induction overlay with
  | nil => intro base h; simpa [dictMerge] using h
  | cons kv t ih =>
      intro base h
      have h1 := config_get_updateAssoc_isSome k kv.1 kv.2 base h
      simpa [dictMerge] using ih _ h1

/-- Claim C10: a missing configuration file and a file that fails to load
both silently yield the built-in defaults (reminder_interval 30,
daily_goal 2000, mute false, start_minimized false); a file that loads is
merged over the defaults key by key, so `get` keeps returning a value for
every default key even when the file is partial. -/
theorem load_config_fallback (e : StorageError)
    (kvs : List (String × ConfigValue)) (k : String) :
    load_config none = defaultConfig ∧
    load_config (some (.error e)) = defaultConfig ∧
    Config.get defaultConfig "reminder_interval" = some (.int 30) ∧
    Config.get defaultConfig "daily_goal" = some (.int 2000) ∧
    Config.get defaultConfig "mute" = some (.bool false) ∧
    Config.get defaultConfig "start_minimized" = some (.bool false) ∧
    ((Config.get defaultConfig k).isSome →
      (Config.get (load_config (some (.ok kvs))) k).isSome) := by
  refine ⟨rfl, rfl, rfl, rfl, rfl, rfl, fun h => ?_⟩
  simpa [load_config] using config_get_dictMerge_isSome k kvs defaultConfig h

/-- Claim C10, witness: a partial file containing only `daily_goal` still
leaves `get "mute"` populated (by the default). -/
theorem load_config_fallback_witness :
    (Config.get (load_config (some (.ok [("daily_goal", .int 1500)]))) "mute").isSome :=
  (load_config_fallback ⟨""⟩ [("daily_goal", .int 1500)] "mute").2.2.2.2.2.2 rfl

/-- One invocation of `checkReminderTimes` either fires and stamps the
watermark with the truncated current minute, or fires nothing and leaves
the watermark alone. -/
theorem checkReminderTimes_cases (points : List Tod) (last : Option Tod)
    (x : DateTime) :
    (checkReminderTimes points last x = (true, some (truncToMinute x.tod)) ∧
      last ≠ some (truncToMinute x.tod)) ∨
    checkReminderTimes points last x = (false, last) := by
  simp only [checkReminderTimes]
  cases hfind : points.find? (fun rt => rt.hour == (truncToMinute x.tod).hour &&
      rt.minute == (truncToMinute x.tod).minute) with
  | none => exact Or.inr rfl
  | some q =>
      by_cases hl : last = some (truncToMinute x.tod)
      · exact Or.inr (by simp [hl])
      · exact Or.inl ⟨by simp [hl], hl⟩

/-- When some configured point matches the minute of `x` and the
watermark differs from that minute, `checkReminderTimes` fires. -/
theorem checkReminderTimes_fires (points : List Tod) (last : Option Tod)
    (x : DateTime) (p : Tod) (hp : p ∈ points)
    (hH : p.hour = x.tod.hour) (hM : p.minute = x.tod.minute)
    (hlast : last ≠ some (truncToMinute x.tod)) :
    checkReminderTimes points last x = (true, some (truncToMinute x.tod)) := by
  rcases checkReminderTimes_cases points last x with h | h
  · exact h.1
  · exfalso
    revert h
    simp only [checkReminderTimes]
    cases hfind : points.find? (fun rt => rt.hour == (truncToMinute x.tod).hour &&
        rt.minute == (truncToMinute x.tod).minute) with
    | none =>
        have := List.find?_eq_none.mp hfind p hp
        simp [truncToMinute, hH, hM] at this
    | some q =>
        simp [hlast]

/-- With the watermark already at the current minute, a run of ticks all
falling in that same minute never fires. -/
theorem runChecks_suppressed (points : List Tod) (H M : Nat) :
    ∀ ts : List DateTime, (∀ x ∈ ts, truncToMinute x.tod = ⟨H, M, 0⟩) →
    runChecks points (some ⟨H, M, 0⟩) ts = List.replicate ts.length false := by
  intro ts
  induction ts with
  | nil => intro _; rfl
  | cons x rest ih =>
      intro hts
      have hx : truncToMinute x.tod = ⟨H, M, 0⟩ := hts x (by simp)
      have hstep : checkReminderTimes points (some ⟨H, M, 0⟩) x =
          (false, some ⟨H, M, 0⟩) := by
        rcases checkReminderTimes_cases points (some ⟨H, M, 0⟩) x with h | h
        · rw [hx] at h
          exact absurd rfl h.2
        · exact h
      simp only [runChecks, hstep]
      rw [ih (fun y hy => hts y (by simp [hy]))]
      simp [List.replicate_succ]

/-- Among ticks falling in one calendar minute, at most one invocation
fires, whatever the initial watermark. -/
theorem runChecks_count_le_one (points : List Tod) (H M : Nat) :
    ∀ ts : List DateTime, (∀ x ∈ ts, truncToMinute x.tod = ⟨H, M, 0⟩) →
    ∀ last0 : Option Tod, (runChecks points last0 ts).count true ≤ 1 := by
  intro ts
  induction ts with
  | nil => intro _ last0; simp [runChecks]
  | cons x rest ih =>
      intro hts last0
      have hx : truncToMinute x.tod = ⟨H, M, 0⟩ := hts x (by simp)
      have hrest : ∀ y ∈ rest, truncToMinute y.tod = ⟨H, M, 0⟩ :=
        fun y hy => hts y (by simp [hy])
      rcases checkReminderTimes_cases points last0 x with h | h
      · rw [hx] at h
        simp only [runChecks, h.1]
        rw [runChecks_suppressed points H M rest hrest]
        simp [List.count_replicate]
      · simp only [runChecks, h]
        have := ih hrest last0
        simpa using this

/-- Claim C6: for a configured point and a sequence of ticks whose
timestamps fall in the same calendar minute matching that point, exactly
the first invocation fires (and stamps the watermark) and all later
invocations return false, provided the watermark does not already carry
that minute; an invocation in a minute matching no point returns false;
and at most one invocation fires per calendar minute whatever the initial
watermark. -/
theorem checkTick_dedup (points : List Tod) (p : Tod) (H M d : Nat)
    (ts : List DateTime) (last : Option Tod)
    (hp : p ∈ points) (hpH : p.hour = H) (hpM : p.minute = M)
    (hts : ∀ x ∈ ts, x.day = d ∧ x.tod.hour = H ∧ x.tod.minute = M)
    (hlast : last ≠ some ⟨H, M, 0⟩) (hne : ts ≠ []) :
    runChecks points last ts = true :: List.replicate (ts.length - 1) false ∧
    (∀ (ps : List Tod) (last' : Option Tod) (y : DateTime),
      (∀ q ∈ ps, ¬(q.hour = y.tod.hour ∧ q.minute = y.tod.minute)) →
      (checkReminderTimes ps last' y).1 = false) ∧
    (∀ last0 : Option Tod, (runChecks points last0 ts).count true ≤ 1) := by
  have htrunc : ∀ x ∈ ts, truncToMinute x.tod = ⟨H, M, 0⟩ := by
    intro x hxmem
    obtain ⟨-, h1, h2⟩ := hts x hxmem
    simp [truncToMinute, h1, h2]
  refine ⟨?_, ?_, fun last0 => runChecks_count_le_one points H M ts htrunc last0⟩
  · obtain ⟨x, rest, rfl⟩ := List.exists_cons_of_ne_nil hne
    have hx := htrunc x (by simp)
    obtain ⟨-, hxH, hxM⟩ := hts x (by simp)
    have hfire := checkReminderTimes_fires points last x p hp
      (by rw [hpH, hxH]) (by rw [hpM, hxM]) (by rw [hx]; exact hlast)
    rw [hx] at hfire
    simp only [runChecks, hfire]
    rw [runChecks_suppressed points H M rest (fun y hy => htrunc y (by simp [hy]))]
    simp
  · intro ps last' y hnomatch
    have hfind : ps.find? (fun rt => rt.hour == (truncToMinute y.tod).hour &&
        rt.minute == (truncToMinute y.tod).minute) = none := by
      apply List.find?_eq_none.mpr
      intro q hq
      simpa [truncToMinute] using hnomatch q hq
    simp [checkReminderTimes, hfind]

/-- Claim C6, witness (the spec's own example): a point at 09:00, ticks
at 09:00:05 and 09:00:40 fire exactly once, a tick at 09:01:00 matches no
point and does not fire, and the pair of same-minute ticks fires at most
once from any watermark. -/
theorem checkTick_dedup_witness :
    runChecks [⟨9, 0, 0⟩] none [⟨0, ⟨9, 0, 5⟩⟩, ⟨0, ⟨9, 0, 40⟩⟩] =
      true :: List.replicate 1 false ∧
    (checkReminderTimes [⟨9, 0, 0⟩] (some ⟨9, 0, 0⟩) ⟨0, ⟨9, 1, 0⟩⟩).1 = false ∧
    (runChecks [⟨9, 0, 0⟩] (some ⟨8, 30, 0⟩)
      [⟨0, ⟨9, 0, 5⟩⟩, ⟨0, ⟨9, 0, 40⟩⟩]).count true ≤ 1 :=
  have h := checkTick_dedup [⟨9, 0, 0⟩] ⟨9, 0, 0⟩ 9 0 0
    [⟨0, ⟨9, 0, 5⟩⟩, ⟨0, ⟨9, 0, 40⟩⟩] none (by decide) rfl rfl
    (by decide) (by decide) (by decide)
  ⟨h.1, h.2.1 [⟨9, 0, 0⟩] (some ⟨9, 0, 0⟩) ⟨0, ⟨9, 1, 0⟩⟩ (by decide),
   h.2.2 (some ⟨8, 30, 0⟩)⟩

/-- On a sorted list, `find?` returns an element that satisfies the
predicate and is a lower bound of every element satisfying it. -/
theorem find?_sorted_min {α : Type} {r : α → α → Prop} (p : α → Bool) :
    ∀ l : List α, l.Sorted r → ∀ x, l.find? p = some x →
      x ∈ l ∧ p x = true ∧ ∀ y ∈ l, p y = true → (x = y ∨ r x y) := by
  intro l
  induction l with
  | nil => intro _ x hx; cases hx
  | cons a t ih =>
      intro hs x hx
      rcases List.sorted_cons.mp hs with ⟨ha, ht⟩
      cases hpa : p a with
      | true =>
          rw [List.find?_cons_of_pos _ hpa] at hx
          have hax : a = x := by injection hx
          subst hax
          refine ⟨by simp, hpa, ?_⟩
          intro y hy _
          rcases List.mem_cons.mp hy with rfl | hyt
          · exact Or.inl rfl
          · exact Or.inr (ha y hyt)
      | false =>
          rw [List.find?_cons_of_neg _ (by simp [hpa])] at hx
          obtain ⟨hxt, hpx, hmin⟩ := ih ht x hx
          refine ⟨List.mem_cons_of_mem _ hxt, hpx, ?_⟩
          intro y hy hpy
          rcases List.mem_cons.mp hy with rfl | hyt
          · rw [hpa] at hpy; cases hpy
          · exact hmin y hyt hpy

/-- Claim C7: for a non-empty point set, `getNextReminderTime` returns
today's earliest point strictly later than `now`'s time of day, and when
none remains today, tomorrow's earliest point; a point exactly equal to
`now`'s time of day does not count as next (the comparison is strict). -/
theorem getNextReminderTime_spec (points : List Tod) (now : DateTime)
    (hne : points ≠ []) :
    ∃ t : Tod, t ∈ points ∧
      ((Tod.lt now.tod t ∧
        getNextReminderTime points now = some ⟨now.day, t⟩ ∧
        ∀ u ∈ points, Tod.lt now.tod u → Tod.le t u) ∨
       ((∀ u ∈ points, ¬Tod.lt now.tod u) ∧
        getNextReminderTime points now = some ⟨now.day + 1, t⟩ ∧
        ∀ u ∈ points, Tod.le t u)) := by
  have hperm : List.Perm (List.insertionSort Tod.le points) points :=
    List.perm_insertionSort Tod.le points
  have hsorted : List.Sorted Tod.le (List.insertionSort Tod.le points) :=
    List.sorted_insertionSort Tod.le points
  cases hs : List.insertionSort Tod.le points with
  | nil =>
      rw [hs] at hperm
      exact absurd hperm.symm.eq_nil hne
  | cons t0 rest =>
      rw [hs] at hperm hsorted
      have hdef : getNextReminderTime points now =
          match (t0 :: rest).find? (fun t => Tod.ltb now.tod t) with
          | some t => some ⟨now.day, t⟩
          | none => some ⟨now.day + 1, t0⟩ := by
        simp only [getNextReminderTime, hs]
      cases hfind : (t0 :: rest).find? (fun t => Tod.ltb now.tod t) with
      | some t =>
          rw [hfind] at hdef
          obtain ⟨htmem, hpt, hmin⟩ := find?_sorted_min _ _ hsorted t hfind
          refine ⟨t, hperm.subset htmem,
            Or.inl ⟨(Tod.ltb_iff _ _).mp hpt, hdef, ?_⟩⟩
          intro u hu hlt
          rcases hmin u (hperm.mem_iff.mpr hu) ((Tod.ltb_iff _ _).mpr hlt) with
            rfl | hr
          · exact Tod.le_refl t
          · exact hr
      | none =>
          rw [hfind] at hdef
          have hnone := List.find?_eq_none.mp hfind
          refine ⟨t0, hperm.subset (by simp), Or.inr ⟨?_, hdef, ?_⟩⟩
          · intro u hu hlt
            exact hnone u (hperm.mem_iff.mpr hu) ((Tod.ltb_iff _ _).mpr hlt)
          · intro u hu
            rcases List.mem_cons.mp (hperm.mem_iff.mpr hu) with rfl | hut
            · exact Tod.le_refl u
            · exact List.rel_of_sorted_cons hsorted u hut

/-- Claim C7, witness (the spec's example): with points 09:00, 12:00,
18:00 and now = 10:30, the next reminder is today's 12:00 (the theorem's
first disjunct holds: 12:00 is a point later than 10:30 and minimal among
those). -/
theorem getNextReminderTime_spec_witness :
    ∃ t : Tod, t ∈ ([⟨9, 0, 0⟩, ⟨12, 0, 0⟩, ⟨18, 0, 0⟩] : List Tod) ∧
      ((Tod.lt (⟨10, 30, 0⟩ : Tod) t ∧
        getNextReminderTime [⟨9, 0, 0⟩, ⟨12, 0, 0⟩, ⟨18, 0, 0⟩]
          ⟨0, ⟨10, 30, 0⟩⟩ = some ⟨0, t⟩ ∧
        ∀ u ∈ ([⟨9, 0, 0⟩, ⟨12, 0, 0⟩, ⟨18, 0, 0⟩] : List Tod),
          Tod.lt ⟨10, 30, 0⟩ u → Tod.le t u) ∨
       ((∀ u ∈ ([⟨9, 0, 0⟩, ⟨12, 0, 0⟩, ⟨18, 0, 0⟩] : List Tod),
          ¬Tod.lt ⟨10, 30, 0⟩ u) ∧
        getNextReminderTime [⟨9, 0, 0⟩, ⟨12, 0, 0⟩, ⟨18, 0, 0⟩]
          ⟨0, ⟨10, 30, 0⟩⟩ = some ⟨0 + 1, t⟩ ∧
        ∀ u ∈ ([⟨9, 0, 0⟩, ⟨12, 0, 0⟩, ⟨18, 0, 0⟩] : List Tod), Tod.le t u)) :=
  getNextReminderTime_spec [⟨9, 0, 0⟩, ⟨12, 0, 0⟩, ⟨18, 0, 0⟩]
    ⟨0, ⟨10, 30, 0⟩⟩ (by decide)

/-- Dict assignment on a tabulated association list updates exactly the
assigned key. -/
theorem updateAssoc_tabulate (ks : List Nat) (f : Nat → Int) (d : Nat)
    (v : Int) :
    ks.Nodup → d ∈ ks →
    updateAssoc (ks.map (fun k => (k, f k))) d v =
      ks.map (fun k => (k, if k = d then v else f k)) := by
  induction ks with
  | nil => intro _ hd; cases hd
  | cons a t ih =>
      intro hnd hd
      rcases List.nodup_cons.mp hnd with ⟨hat, hndt⟩
      by_cases had : a = d
      · subst had
        simp only [List.map_cons, updateAssoc, if_pos rfl, if_true]
        congr 1
        apply List.map_congr_left
        intro k hk
        rw [if_neg (fun h : k = a => hat (h ▸ hk))]
      · rcases List.mem_cons.mp hd with rfl | hdt
        · exact absurd rfl had
        · simp only [List.map_cons, updateAssoc, if_neg had]
          rw [ih hndt hdt]

/-- Folding dict assignments whose keys all lie in a tabulated dict with
distinct keys, and whose values agree with a value function `v`, yields
the tabulation updated at exactly the assigned keys. -/
theorem foldl_updateAssoc_tabulate (v : Nat → Int) :
    ∀ (rows : List (Nat × Int)) (ks : List Nat) (g : Nat → Int),
      ks.Nodup → (∀ p ∈ rows, p.1 ∈ ks ∧ p.2 = v p.1) →
      rows.foldl (fun dict row => updateAssoc dict row.1 row.2)
          (ks.map (fun k => (k, g k))) =
        ks.map (fun k => (k, if k ∈ rows.map Prod.fst then v k else g k)) := by
  intro rows
  induction rows with
  | nil => intro ks g _ _; simp
  | cons row rest ih =>
      intro ks g hnd hrows
      obtain ⟨hd, hv⟩ := hrows row (by simp)
      simp only [List.foldl_cons]
      rw [updateAssoc_tabulate ks g row.1 row.2 hnd hd]
      rw [ih ks (fun k => if k = row.1 then row.2 else g k) hnd
        (fun p hp => hrows p (by simp [hp]))]
      apply List.map_congr_left
      intro k hk
      by_cases hkr : k ∈ rest.map Prod.fst
      · simp [hkr]
      · by_cases hk1 : k = row.1
        · subst hk1
          simp [hkr, hv]
        · simp [hkr, hk1]

/-- The keys of the SQL weekly grouping are exactly the record days at or
after `start`. -/
theorem mem_sqlWeeklyRows_keys (records : List DrinkRecord) (start d : Nat) :
    d ∈ (sqlWeeklyRows records start).map Prod.fst ↔
      start ≤ d ∧ ∃ r ∈ records, r.timestamp.day = d := by
  have hkeys : (sqlWeeklyRows records start).map Prod.fst =
      (((records.map (fun r => r.timestamp.day)).filter
        (fun d => start ≤ d)).dedup).insertionSort (· ≤ ·) := by
    simp [sqlWeeklyRows, List.map_map, Function.comp_def]
  rw [hkeys, List.Perm.mem_iff (List.perm_insertionSort _ _),
    List.mem_dedup, List.mem_filter]
  simp only [List.mem_map, decide_eq_true_eq]
  constructor
  · rintro ⟨⟨r, hr, rfl⟩, hle⟩
    exact ⟨hle, r, hr, rfl⟩
  · rintro ⟨hle, r, hr, rfl⟩
    exact ⟨⟨r, hr, rfl⟩, hle⟩

/-- Each SQL weekly row carries the day total of its day. -/
theorem sqlWeeklyRows_val (records : List DrinkRecord) (start : Nat) :
    ∀ p ∈ sqlWeeklyRows records start, p.2 = dayTotal p.1 records := by
  intro p hp
  simp only [sqlWeeklyRows, List.mem_map] at hp
  obtain ⟨d, -, rfl⟩ := hp
  rfl

/-- Claim C4, amended: on the success path, whenever every stored record
falls on or before `today`, `get_weekly_data` returns exactly 7 entries,
one per calendar day of the window `today-6 .. today` in oldest-first
order, whose totals are the individual day totals (0 for days without
records); on the storage-error path it returns the single entry
`(today, 0)` instead of a 7-entry series. -/
theorem get_weekly_data_spec (today : Nat) (records : List DrinkRecord)
    (e : StorageError) (h6 : 6 ≤ today)
    (hpast : ∀ r ∈ records, r.timestamp.day ≤ today) :
    get_weekly_data today (.ok records) =
      (List.range 7).map (fun i =>
        (today - 6 + i, dayTotal (today - 6 + i) records)) ∧
    (get_weekly_data today (.ok records)).length = 7 ∧
    get_weekly_data today (.error e) = [(today, 0)] := by
  have hinit : (List.range 7).map (fun i => (today - 6 + i, (0 : Int))) =
      ((List.range 7).map (fun i => today - 6 + i)).map
        (fun k => (k, (0 : Int))) := by
    simp [List.map_map, Function.comp_def]
  have hksnd : ((List.range 7).map (fun i => today - 6 + i)).Nodup := by
    refine List.Nodup.map ?_ (List.nodup_range 7)
    intro a b h
    simp only at h
    omega
  have hrows : ∀ p ∈ sqlWeeklyRows records (today - 6),
      p.1 ∈ (List.range 7).map (fun i => today - 6 + i) ∧
        p.2 = dayTotal p.1 records := by
    intro p hp
    have hval := sqlWeeklyRows_val records (today - 6) p hp
    have hkey : p.1 ∈ (sqlWeeklyRows records (today - 6)).map Prod.fst :=
      List.mem_map_of_mem _ hp
    rw [mem_sqlWeeklyRows_keys] at hkey
    obtain ⟨hstart, r, hr, hrd⟩ := hkey
    have hle : p.1 ≤ today := hrd ▸ hpast r hr
    refine ⟨List.mem_map.mpr ⟨p.1 - (today - 6), List.mem_range.mpr (by omega),
      by omega⟩, hval⟩
  have hunfold : get_weekly_data today (.ok records) =
      (sqlWeeklyRows records (today - 6)).foldl
        (fun dict row => updateAssoc dict row.1 row.2)
        ((List.range 7).map (fun i => (today - 6 + i, (0 : Int)))) := rfl
  have hmain : get_weekly_data today (.ok records) =
      (List.range 7).map (fun i =>
        (today - 6 + i, dayTotal (today - 6 + i) records)) := by
    rw [hunfold, hinit,
      foldl_updateAssoc_tabulate (fun k => dayTotal k records) _ _ _ hksnd hrows,
      List.map_map]
    apply List.map_congr_left
    intro i hi
    simp only [Function.comp_def]
    by_cases hk : (today - 6 + i) ∈
        (sqlWeeklyRows records (today - 6)).map Prod.fst
    · simp [hk]
    · have hzero : dayTotal (today - 6 + i) records = 0 := by
        have hfil : records.filter
            (fun r => r.timestamp.day == (today - 6 + i)) = [] := by
          rw [List.filter_eq_nil_iff]
          intro r hrm hb
          have hrd : r.timestamp.day = today - 6 + i := by simpa using hb
          exact hk (by
            rw [mem_sqlWeeklyRows_keys]
            exact ⟨by omega, r, hrm, hrd⟩)
        rw [dayTotal, hfil]
        rfl
      simp [hk, hzero]
  exact ⟨hmain, by rw [hmain]; simp, rfl⟩

/-- Claim C4, witness: with one 100 ml record on day 6 and `today = 6`,
the series is the 7 in-order day totals for days 0 through 6, of length
7, and a storage error yields the single entry `(6, 0)`. -/
theorem get_weekly_data_spec_witness :
    get_weekly_data 6 (.ok [⟨⟨6, 0⟩, 100, ""⟩]) =
      (List.range 7).map (fun i =>
        (6 - 6 + i, dayTotal (6 - 6 + i) [⟨⟨6, 0⟩, 100, ""⟩])) ∧
    (get_weekly_data 6 (.ok [⟨⟨6, 0⟩, 100, ""⟩])).length = 7 ∧
    get_weekly_data 6 (.error ⟨"io error"⟩) = [(6, 0)] :=
  get_weekly_data_spec 6 [⟨⟨6, 0⟩, 100, ""⟩] ⟨"io error"⟩ (by decide)
    (by decide)

/-- Claim C4, counterexample: on the storage-error path `get_weekly_data`
returns one entry, not the 7 zero-filled entries the claim requires. -/
theorem get_weekly_data_error_single_entry :
    get_weekly_data 10 (.error ⟨"disk failure"⟩) = [(10, 0)] ∧
    (get_weekly_data 10 (.error ⟨"disk failure"⟩)).length ≠ 7 :=
  ⟨rfl, by decide⟩

end Heshui
